import Mathlib

/-!
Verification of the `auto-file-sorter` move pipeline.

This file is a shallow embedding, in Lean 4, of the core logic of the
repository (module `auto_file_sorter`), together with theorems about it.

Modelling conventions:
* A filesystem path is a list of path components (`Path := List String`).
* The filesystem is a pair of finite sets: the paths that exist as regular
  files and the paths that exist as directories.  `Path.exists()` in Python
  is true when the path exists as either.
* Python strings are Lean `String`s.  `str.lower()` is modelled for the
  ASCII range (`lowerChar`), which covers every string the program compares
  (file extensions validated against `^\.[a-zA-Z0-9]+$`).
* Blocking I/O that can raise (directory creation, the move itself) is
  modelled by an error-injection oracle: each step of the per-file task can
  be told to raise a given exception kind, mirroring Python's dynamic
  exceptions.  `except Exception` catches every kind of the `PyErr` type.
* The thread pool of `on_modified` is modelled by a sequential fold over
  the enumerated children (one admissible interleaving); the per-file task
  itself is atomic in this model.
-/

namespace AutoFileSorter

/-! ## ASCII string helpers (embedding of the Python `str` methods used) -/

/-- ASCII lower-casing of one character, the fragment of `str.lower()`
exercised by the program (extensions are validated to be ASCII). -/
def lowerChar (c : Char) : Char :=
  if 65 ≤ c.toNat ∧ c.toNat ≤ 90 then Char.ofNat (c.toNat + 32) else c

/-- Embedding of `str.lower()` restricted to ASCII case mapping. -/
def pyLower (s : String) : String := String.mk (s.data.map lowerChar)

/-- Embedding of `str.replace(" ", "")`: every space character is removed. -/
def pyReplaceSpace (s : String) : String :=
  String.mk (s.data.filter (fun c => c ≠ ' '))

/-- Embedding of `str.strip()`: leading and trailing whitespace removed. -/
def pyStrip (s : String) : String :=
  String.mk (((s.data.dropWhile Char.isWhitespace).reverse.dropWhile
    Char.isWhitespace).reverse)

/-- Index of the last `'.'` in a character list, if any: the embedding of
`str.rfind('.')` (returning `none` instead of `-1`). -/
def rfindDotAux : List Char → Nat → Option Nat
  | [], _ => none
  | c :: cs, i =>
    match rfindDotAux cs (i + 1) with
    | some j => some j
    | none => if c = '.' then some i else none

/-- Index of the last dot of a file name, as `str.rfind('.')`. -/
def rfindDot (nm : String) : Option Nat := rfindDotAux nm.data 0

/-- Embedding of `pathlib.PurePath.suffix`: the part of the name from the
last dot on, provided the dot is neither the first nor the last character;
otherwise the empty string. -/
def pySuffix (nm : String) : String :=
  match rfindDot nm with
  | some i =>
    if 0 < i ∧ i < nm.data.length - 1 then String.mk (nm.data.drop i) else ""
  | none => ""

/-- Embedding of `pathlib.PurePath.stem`: the name up to the last dot under
the same proviso, otherwise the whole name. -/
def pyStem (nm : String) : String :=
  match rfindDot nm with
  | some i =>
    if 0 < i ∧ i < nm.data.length - 1 then String.mk (nm.data.take i) else nm
  | none => nm

/-- Little-endian decimal digits of `n`, with explicit fuel so that the
definition is structural (the fuel `n` itself always suffices). -/
def decDigitsAux : Nat → Nat → List Nat
  | 0, _ => []
  | fuel + 1, n => if n = 0 then [] else (n % 10) :: decDigitsAux fuel (n / 10)

/-- Embedding of Python `str(n)` for a natural number: its decimal digits. -/
def decimalRepr (n : Nat) : String :=
  if n = 0 then "0"
  else String.mk ((decDigitsAux n n).reverse.map Nat.digitChar)

/-- Evaluation of a little-endian digit list back to a number (proof helper
for the injectivity of `decimalRepr`). -/
def ofRevDigits : List Nat → Nat
  | [] => 0
  | d :: ds => d + 10 * ofRevDigits ds

/-! ## Filesystem model -/

/-- A filesystem path: the list of its components. -/
abbrev Path := List String

/-- The filesystem state: which paths exist as regular files and which
exist as directories. -/
structure FS where
  files : Finset Path
  dirs : Finset Path
  deriving DecidableEq

/-- Embedding of `Path.exists()`: the path exists as a file or directory. -/
def ExistsPath (fs : FS) (p : Path) : Prop := p ∈ fs.files ∨ p ∈ fs.dirs

instance (fs : FS) (p : Path) : Decidable (ExistsPath fs p) := by
  unfold ExistsPath; infer_instance

/-- All nonempty prefixes of a path: the chain of directories that
`mkdir(parents=True)` creates. -/
def pathAncestors (p : Path) : Finset Path :=
  ((List.range p.length).map (fun i => p.take (i + 1))).toFinset

/-- Embedding of `Path.mkdir(parents=True, exist_ok=True)` in its normal
(non-raising) behaviour: the directory and all its ancestors exist
afterwards, files are untouched. -/
def mkdirParents (fs : FS) (p : Path) : FS :=
  ⟨fs.files, fs.dirs ∪ pathAncestors p⟩

/-- The `%b` month abbreviations of the C locale. -/
def monthNames : List String :=
  ["Jan", "Feb", "Mar", "Apr", "May", "Jun",
   "Jul", "Aug", "Sep", "Oct", "Nov", "Dec"]

/-- Three-letter month abbreviation, as `datetime.now():%b`. -/
def monthAbbr (m : Fin 12) : String := monthNames.getD m.val ""

/-- The current local date, as far as the pipeline consumes it. -/
structure Date where
  year : Nat
  month : Fin 12
  deriving DecidableEq

/-- The two path components appended by the `f"{datetime.now():%Y/%b}"`
format: decimal year, three-letter month. -/
def datedSegments (d : Date) : List String :=
  [decimalRepr d.year, monthAbbr d.month]

/-- Embedding of `_add_date_to_path` (event_handling.py): append the
current year/month to the destination path and create the directory tree
if missing. Returns the dated path and the updated filesystem. -/
def add_date_to_path (fs : FS) (path : Path) (d : Date) : Path × FS :=
  let dated_path := path ++ datedSegments d
  (dated_path, mkdirParents fs dated_path)

/-! ## Collision-free renaming (`_increment_file_name`) -/

/-- The candidate name built by `f"{source.stem} ({increment}){source.suffix}"`. -/
def candidateName (stem suffix : String) (increment : Nat) : String :=
  stem ++ " (" ++ decimalRepr increment ++ ")" ++ suffix

/-- The `while new_path.exists()` loop of `_increment_file_name`, checking
candidates `increment, increment+1, ...`.  The second component counts the
`exists()` checks performed.  The loop is given explicit fuel; the caller
passes one more than the number of existing paths, which the termination
lemmas prove is never exhausted (the fuel-0 branch is unreachable). -/
def findCandidate (fs : FS) (destination : Path) (stem suffix : String) :
    Nat → Nat → Path × Nat
  | 0, increment => (destination ++ [candidateName stem suffix increment], 1)
  | fuel + 1, increment =>
    let new_path := destination ++ [candidateName stem suffix increment]
    if ExistsPath fs new_path then
      let r := findCandidate fs destination stem suffix fuel (increment + 1)
      (r.1, r.2 + 1)
    else (new_path, 1)

/-- Embedding of `_increment_file_name` (event_handling.py): the chosen
collision-free destination path, paired with the number of `exists()`
checks performed (the initial check of `destination / source.name`, the
re-check of that same path on entering the `while` loop, and one check per
candidate tried). -/
def increment_file_name (fs : FS) (destination : Path) (sourceName : String) :
    Path × Nat :=
  let new_path := destination ++ [sourceName]
  if ExistsPath fs new_path then
    let r := findCandidate fs destination (pyStem sourceName)
      (pySuffix sourceName) ((fs.files ∪ fs.dirs).card + 1) 2
    (r.1, r.2 + 2)
  else (new_path, 1)

/-- A file name of the colliding form `stem (digits)suffix`. -/
def NameColl (stem suffix nm : String) : Prop :=
  (stem ++ " (").data.length + (")" ++ suffix).data.length < nm.data.length ∧
  nm.data.take (stem ++ " (").data.length = (stem ++ " (").data ∧
  nm.data.drop (nm.data.length - (")" ++ suffix).data.length) =
    (")" ++ suffix).data ∧
  ∀ c ∈ (nm.data.drop (stem ++ " (").data.length).take
      (nm.data.length - (stem ++ " (").data.length -
        (")" ++ suffix).data.length),
    c.isDigit = true

instance (stem suffix nm : String) : Decidable (NameColl stem suffix nm) := by
  unfold NameColl; infer_instance

/-- A path in the destination directory whose name has the colliding form
`stem (N)suffix`. -/
def IsCollidingPath (stem suffix : String) (destination : Path) (p : Path) :
    Prop :=
  p.take destination.length = destination ∧
  p.length = destination.length + 1 ∧
  NameColl stem suffix (p.getLastD "")

instance (stem suffix : String) (destination p : Path) :
    Decidable (IsCollidingPath stem suffix destination p) := by
  unfold IsCollidingPath; infer_instance

/-! ## The event handler and the per-file move task -/

/-- Log severities used by the program (`MOVE_LOG_LEVEL = 60` is the
distinguished level for successful moves; `logger.exception` records at
error severity). -/
inductive LogLevel
  | debug
  | info
  | warning
  | error
  | critical
  | moveLevel
  deriving DecidableEq

/-- One emitted log record. -/
structure LogRec where
  level : LogLevel
  msg : String
  deriving DecidableEq

/-- The kinds of Python `Exception` the per-file task distinguishes: the
three explicitly caught classes and `other` for every remaining
`Exception` subclass (caught by the bare `except Exception`). -/
inductive PyErr
  | permission
  | fileNotFound
  | shutilOrOs
  | other
  deriving DecidableEq

/-- The three statements inside the `try` block of `_move_file` at which an
exception can be raised. -/
inductive MoveStep
  | addDate
  | increment
  | move
  deriving DecidableEq

/-- Outcome of one `_move_file` task: resulting filesystem, log records,
and the performed move (source, destination) if one happened. -/
structure MoveResult where
  fs : FS
  logs : List LogRec
  moved : Option (Path × Path)
  deriving DecidableEq

/-- The configuration of `OnModifiedEventHandler`: tracked directory,
extension-to-destination mapping (an association list standing for the
Python dict, first match wins) and the optional fallback directory. -/
structure Handler where
  tracked_path : Path
  extension_paths : List (String × Path)
  path_for_undefined_extensions : Option Path
  deriving DecidableEq

/-- The name (last component) of a path, as `Path.name`. -/
def pathName (p : Path) : String := p.getLastD ""

/-- The destination lookup of `_move_file`:
`self.extension_paths.get(file_path.suffix.lower(),
self.path_for_undefined_extensions)`. -/
def destinationLookup (h : Handler) (file_path : Path) : Option Path :=
  match List.lookup (pyLower (pySuffix (pathName file_path)))
      h.extension_paths with
  | some p => some p
  | none => h.path_for_undefined_extensions

/-- The warning record logged when a file is skipped because its extension
is unmapped and no fallback destination is configured. -/
def skipUndefinedRec : LogRec :=
  ⟨LogLevel.warning, "Skipping file: no path defined in the configs and no path for undefined extensions"⟩

/-- The log record each `except` clause of `_move_file` emits: critical for
the three classified kinds, `logger.exception` (error severity) for an
unclassified one. -/
def handleException : PyErr → LogRec
  | .permission => ⟨LogLevel.critical, "Permission denied"⟩
  | .fileNotFound => ⟨LogLevel.critical, "File not found while moving"⟩
  | .shutilOrOs => ⟨LogLevel.critical, "Error while moving file"⟩
  | .other => ⟨LogLevel.error, "Unexpected exception"⟩

/-- The `try` block of `_move_file`: date-directory creation, collision
renaming, and the move, with `inj` injecting the exception (if any) each
statement raises.  An error outcome carries the filesystem as left behind
and the records logged before the raise; Python does not roll back. -/
def move_file_try (d : Date) (inj : MoveStep → Option PyErr) (fs : FS)
    (destination_path file_path : Path) :
    Except (PyErr × FS × List LogRec) MoveResult :=
  match inj MoveStep.addDate with
  | some e => .error (e, fs, [])
  | none =>
    let r1 := add_date_to_path fs destination_path d
    match inj MoveStep.increment with
    | some e => .error (e, r1.2, [⟨LogLevel.debug, "Added date"⟩])
    | none =>
      let final := (increment_file_name r1.2 r1.1 (pathName file_path)).1
      match inj MoveStep.move with
      | some e =>
        .error (e, r1.2,
          [⟨LogLevel.debug, "Added date"⟩,
           ⟨LogLevel.debug, "Processed optional incrementation"⟩])
      | none =>
        .ok ⟨⟨insert final ((r1.2).files.erase file_path), (r1.2).dirs⟩,
          [⟨LogLevel.debug, "Added date"⟩,
           ⟨LogLevel.debug, "Processed optional incrementation"⟩,
           ⟨LogLevel.moveLevel, "Moved file"⟩],
          some (file_path, final)⟩

/-- Embedding of `OnModifiedEventHandler._move_file`: destination lookup
with fallback, skip-with-warning when neither is defined, then the `try`
block with every `Exception` kind caught and logged. -/
def move_file (h : Handler) (d : Date) (inj : MoveStep → Option PyErr)
    (fs : FS) (file_path : Path) : MoveResult :=
  match destinationLookup h file_path with
  | none => ⟨fs, [skipUndefinedRec], none⟩
  | some destination_path =>
    match move_file_try d inj fs destination_path file_path with
    | .ok r =>
      ⟨r.fs, ⟨LogLevel.debug, "Got extension path"⟩ :: r.logs, r.moved⟩
    | .error (e, fs2, lg) =>
      ⟨fs2, (⟨LogLevel.debug, "Got extension path"⟩ :: lg) ++
        [handleException e], none⟩

/-- One child of the tracked directory as seen by `iterdir`, with the
result of its `is_file()` check. -/
structure DirEntry where
  path : Path
  isFile : Bool
  deriving DecidableEq

/-- Outcome of one notification: resulting filesystem, log records, and
the children submitted to the executor as `_move_file` tasks. -/
structure NotifyResult where
  fs : FS
  logs : List LogRec
  submitted : List Path
  deriving DecidableEq

/-- Processing of one enumerated child inside `on_modified`: regular files
are submitted to the pool (run here at submission order), everything else
is skipped with a debug record. -/
def processChild (h : Handler) (d : Date)
    (inj : Path → MoveStep → Option PyErr) (acc : NotifyResult)
    (child : DirEntry) : NotifyResult :=
  if child.isFile then
    let r := move_file h d (inj child.path) acc.fs child.path
    ⟨r.fs, acc.logs ++ ⟨LogLevel.debug, "Processing"⟩ :: r.logs,
      acc.submitted ++ [child.path]⟩
  else
    ⟨acc.fs, acc.logs ++ [⟨LogLevel.debug, "Skipping directory"⟩],
      acc.submitted⟩

/-- Embedding of `OnModifiedEventHandler.on_modified`: the enumeration of
`self.tracked_path.iterdir()` is passed in as `listing`; a raising
`iterdir` propagates out of the method, because the source wraps no
`try`/`except` around the loop. -/
def on_modified (h : Handler) (d : Date)
    (inj : Path → MoveStep → Option PyErr)
    (listing : Except PyErr (List DirEntry)) (fs : FS) :
    Except PyErr NotifyResult :=
  match listing with
  | .error e => .error e
  | .ok children =>
    .ok (children.foldl (processChild h d inj)
      ⟨fs, [⟨LogLevel.debug, "event"⟩], []⟩)

/-! ## Configuration building (args_handling.py / configs_handling.py) -/

/-- `EXIT_SUCCESS` (constants.py). -/
def EXIT_SUCCESS : Nat := 0

/-- `EXIT_FAILURE` (constants.py). -/
def EXIT_FAILURE : Nat := 1

/-- The configs dict: extension string to destination path string, as an
association list in insertion order (Python dicts preserve it). -/
abbrev Configs := List (String × String)

/-- `configs[k] = v`: overwrite in place if the key is present, else
append. -/
def dictInsert (m : Configs) (k v : String) : Configs :=
  if (List.lookup k m).isSome then
    m.map (fun kv => if kv.1 = k then (k, v) else kv)
  else m ++ [(k, v)]

/-- `configs.update(d)`: insert every pair of `d` in order. -/
def dictUpdate (m d : Configs) : Configs :=
  d.foldl (fun acc kv => dictInsert acc kv.1 kv.2) m

/-- `FILE_EXTENSION_PATTERN.fullmatch`, the regex `^\.[a-zA-Z0-9]+$`
(constants.py): a dot followed by at least one ASCII alphanumeric. -/
def matchesExtensionPattern (s : String) : Bool :=
  match s.data with
  | c :: rest =>
    (c == '.') && !rest.isEmpty && rest.all (fun c => c.isAlpha || c.isDigit)
  | [] => false

/-- The normalization applied to a single extension before it is added:
`new_config[0].lower().replace(" ", "")`. -/
def normalizeExtension (s : String) : String := pyReplaceSpace (pyLower s)

/-- Embedding of the `args.new_config` branch of `handle_write_args`
(args_handling.py, mirrored by `add_new_config_to_configs`): normalize the
extension, reject empty strings and pattern mismatches with
`EXIT_FAILURE`, otherwise store the pair. -/
def handle_write_args_new_config (configs : Configs) (ext pathStr : String) :
    Configs × Nat :=
  let new_extension := normalizeExtension ext
  let new_path := pyStrip pathStr
  if new_extension = "" ∨ new_path = "" then (configs, EXIT_FAILURE)
  else if matchesExtensionPattern new_extension = false then
    (configs, EXIT_FAILURE)
  else (dictInsert configs new_extension new_path, EXIT_SUCCESS)

/-- Embedding of the `args.json_file` branch of `handle_write_args` and of
`load_json_file_into_configs` (configs_handling.py) after a successful
read of the JSON file (the `.json`-name check and the read errors concern
the file itself, not the keys): `configs.update(new_configs_from_json)`,
inserting the keys exactly as read, with no normalization. -/
def load_json_file_into_configs (new_configs_from_json configs : Configs) :
    Configs × Nat :=
  (dictUpdate configs new_configs_from_json, EXIT_SUCCESS)

/-! ## Helper lemmas: decimal representation -/

theorem ofRevDigits_decDigitsAux :
    ∀ fuel n, n ≤ fuel → ofRevDigits (decDigitsAux fuel n) = n := by
  intro fuel
  induction fuel with
  | zero => intro n hn; interval_cases n; rfl
  | succ f ih =>
    intro n hn
    by_cases h0 : n = 0
    · subst h0; simp [decDigitsAux, ofRevDigits]
    · have hdiv : n / 10 ≤ f := by
        have : n / 10 < n := Nat.div_lt_self (Nat.pos_of_ne_zero h0) (by omega)
        omega
      simp only [decDigitsAux, if_neg h0, ofRevDigits, ih (n / 10) hdiv]
      omega

theorem decDigitsAux_lt_ten :
    ∀ fuel n, ∀ d ∈ decDigitsAux fuel n, d < 10 := by
  intro fuel
  induction fuel with
  | zero => intro n d hd; simp [decDigitsAux] at hd
  | succ f ih =>
    intro n d hd
    by_cases h0 : n = 0
    · subst h0; simp [decDigitsAux] at hd
    · simp only [decDigitsAux, if_neg h0, List.mem_cons] at hd
      rcases hd with h | h
      · omega
      · exact ih (n / 10) d h

theorem digitChar_inj_lt :
    ∀ d1 < 10, ∀ d2 < 10, Nat.digitChar d1 = Nat.digitChar d2 → d1 = d2 := by
  decide

theorem digitChar_isDigit : ∀ d < 10, (Nat.digitChar d).isDigit = true := by
  decide

theorem map_digitChar_inj :
    ∀ l1 l2 : List Nat, (∀ d ∈ l1, d < 10) → (∀ d ∈ l2, d < 10) →
      l1.map Nat.digitChar = l2.map Nat.digitChar → l1 = l2 := by
  intro l1
  induction l1 with
  | nil => intro l2 _ _ h; cases l2 <;> simp_all
  | cons d ds ih =>
    intro l2 h1 h2 h
    cases l2 with
    | nil => simp at h
    | cons e es =>
      simp only [List.map_cons, List.cons.injEq] at h
      have hd : d = e :=
        digitChar_inj_lt d (h1 d (by simp)) e (h2 e (by simp)) h.1
      have ht : ds = es :=
        ih es (fun x hx => h1 x (by simp [hx]))
          (fun x hx => h2 x (by simp [hx])) h.2
      rw [hd, ht]

theorem decimalRepr_inj (m n : Nat) (hm : 1 ≤ m) (hn : 1 ≤ n)
    (h : decimalRepr m = decimalRepr n) : m = n := by
  unfold decimalRepr at h
  rw [if_neg (by omega), if_neg (by omega)] at h
  have hdata := congrArg String.data h
  simp only [String.data] at hdata
  have hrev := congrArg List.reverse hdata
  rw [← List.map_reverse, ← List.map_reverse, List.reverse_reverse,
    List.reverse_reverse] at hrev
  have hdig := map_digitChar_inj _ _ (decDigitsAux_lt_ten m m)
    (decDigitsAux_lt_ten n n) hrev
  have h1 := ofRevDigits_decDigitsAux m m le_rfl
  have h2 := ofRevDigits_decDigitsAux n n le_rfl
  rw [← h1, ← h2, hdig]

theorem decimalRepr_data_digits (n : Nat) (hn : 1 ≤ n) :
    ∀ c ∈ (decimalRepr n).data, c.isDigit = true := by
  intro c hc
  unfold decimalRepr at hc
  rw [if_neg (by omega)] at hc
  simp only [String.data, List.mem_map, List.mem_reverse] at hc
  obtain ⟨d, hd, hcd⟩ := hc
  rw [← hcd]
  exact digitChar_isDigit d (decDigitsAux_lt_ten n n d hd)

theorem decimalRepr_ne_empty (n : Nat) : (decimalRepr n).data ≠ [] := by
  unfold decimalRepr
  by_cases h0 : n = 0
  · subst h0; simp
  · rw [if_neg h0]
    have : decDigitsAux n n ≠ [] := by
      cases n with
      | zero => omega
      | succ k => simp [decDigitsAux]
    simpa [String.data] using this

theorem candidateName_inj (stem suffix : String) (m n : Nat) (hm : 1 ≤ m)
    (hn : 1 ≤ n) (h : candidateName stem suffix m = candidateName stem suffix n) :
    m = n := by
  unfold candidateName at h
  have hdata := congrArg String.data h
  simp only [String.data_append, List.append_assoc] at hdata
  have h1 := List.append_cancel_left hdata
  have h2 := List.append_cancel_left h1
  have h3 : (decimalRepr m).data ++ (")".data ++ suffix.data) =
      (decimalRepr n).data ++ (")".data ++ suffix.data) := by
    simpa [List.append_assoc] using h2
  have h4 := List.append_cancel_right h3
  exact decimalRepr_inj m n hm hn (String.ext h4)

/-! ## Helper lemmas: the collision loop -/

theorem exists_free_candidate (fs : FS) (destination : Path)
    (stem suffix : String) (n : Nat) (hn : 1 ≤ n) :
    ∃ j, j < (fs.files ∪ fs.dirs).card + 1 ∧
      ¬ ExistsPath fs (destination ++ [candidateName stem suffix (n + j)]) := by
  by_contra hcon
  push_neg at hcon
  have hmaps : ∀ j ∈ Finset.range ((fs.files ∪ fs.dirs).card + 1),
      destination ++ [candidateName stem suffix (n + j)] ∈
        fs.files ∪ fs.dirs := by
    intro j hj
    rw [Finset.mem_range] at hj
    rcases hcon j hj with h | h
    · exact Finset.mem_union_left _ h
    · exact Finset.mem_union_right _ h
  have hinj : Set.InjOn
      (fun j => destination ++ [candidateName stem suffix (n + j)])
      ↑(Finset.range ((fs.files ∪ fs.dirs).card + 1)) := by
    intro a _ b _ hab
    simp only [List.append_cancel_left_eq, List.cons.injEq] at hab
    have := candidateName_inj stem suffix (n + a) (n + b)
      (by omega) (by omega) hab.1
    omega
  have hcard := Finset.card_le_card_of_injOn _ hmaps hinj
  simp only [Finset.card_range] at hcard
  omega

theorem findCandidate_spec (fs : FS) (destination : Path)
    (stem suffix : String) :
    ∀ fuel n,
      (∃ j, j < fuel ∧
        ¬ ExistsPath fs (destination ++ [candidateName stem suffix (n + j)])) →
      ∃ j, j < fuel ∧
        findCandidate fs destination stem suffix fuel n =
          (destination ++ [candidateName stem suffix (n + j)], j + 1) ∧
        ¬ ExistsPath fs (destination ++ [candidateName stem suffix (n + j)]) ∧
        ∀ i, i < j →
          ExistsPath fs (destination ++ [candidateName stem suffix (n + i)]) := by
  intro fuel
  induction fuel with
  | zero =>
    intro n h
    obtain ⟨j, hj, _⟩ := h
    omega
  | succ f ih =>
    intro n h
    by_cases hex : ExistsPath fs (destination ++ [candidateName stem suffix n])
    · obtain ⟨j0, hj0, hfree⟩ := h
      have hj0ne : j0 ≠ 0 := by
        intro h0
        subst h0
        simp only [Nat.add_zero] at hfree
        exact hfree hex
      have hpre : ∃ j, j < f ∧
          ¬ ExistsPath fs
            (destination ++ [candidateName stem suffix (n + 1 + j)]) := by
        refine ⟨j0 - 1, by omega, ?_⟩
        have harith : n + 1 + (j0 - 1) = n + j0 := by omega
        rw [harith]
        exact hfree
      obtain ⟨j', hj', heq, hfree', hleast'⟩ := ih (n + 1) hpre
      have harith : n + 1 + j' = n + (j' + 1) := by omega
      refine ⟨j' + 1, by omega, ?_, ?_, ?_⟩
      · simp only [findCandidate, if_pos hex, heq, harith]
      · rw [← harith]
        exact hfree'
      · intro i hi
        cases i with
        | zero => simpa using hex
        | succ i' =>
          have harith2 : n + (i' + 1) = n + 1 + i' := by omega
          rw [harith2]
          exact hleast' i' (by omega)
    · refine ⟨0, by omega, ?_, by simpa using hex, by omega⟩
      simp only [findCandidate, if_neg hex, Nat.add_zero]

theorem increment_file_name_spec (fs : FS) (destination : Path)
    (nm : String) :
    (¬ ExistsPath fs (destination ++ [nm]) →
      increment_file_name fs destination nm = (destination ++ [nm], 1)) ∧
    (ExistsPath fs (destination ++ [nm]) →
      ∃ N, 2 ≤ N ∧
        (increment_file_name fs destination nm).1 =
          destination ++ [candidateName (pyStem nm) (pySuffix nm) N] ∧
        (∀ m, 2 ≤ m → m < N →
          ExistsPath fs
            (destination ++ [candidateName (pyStem nm) (pySuffix nm) m])) ∧
        (increment_file_name fs destination nm).2 = N + 1 ∧
        N - 2 < (fs.files ∪ fs.dirs).card + 1) ∧
    ¬ ExistsPath fs ((increment_file_name fs destination nm).1) := by
  by_cases hex : ExistsPath fs (destination ++ [nm])
  · have hpre := exists_free_candidate fs destination (pyStem nm)
      (pySuffix nm) 2 (by omega)
    obtain ⟨j, hj, heq, hfree, hleast⟩ := findCandidate_spec fs destination
      (pyStem nm) (pySuffix nm) ((fs.files ∪ fs.dirs).card + 1) 2 hpre
    have hval : increment_file_name fs destination nm =
        (destination ++ [candidateName (pyStem nm) (pySuffix nm) (2 + j)],
          j + 3) := by
      simp only [increment_file_name, if_pos hex, heq]
    refine ⟨fun hc => absurd hex hc, fun _ => ⟨2 + j, by omega, ?_, ?_, ?_, ?_⟩, ?_⟩
    · rw [hval]
    · intro m hm2 hmN
      have harith : m = 2 + (m - 2) := by omega
      rw [harith]
      exact hleast (m - 2) (by omega)
    · rw [hval]; omega
    · omega
    · rw [hval]
      exact hfree
  · have hval : increment_file_name fs destination nm =
        (destination ++ [nm], 1) := by
      simp only [increment_file_name, if_neg hex]
    refine ⟨fun _ => hval, fun hc => absurd hc hex, ?_⟩
    rw [hval]
    exact hex

/-! ## Helper lemmas: colliding-name shape -/

theorem candidateName_data (stem suffix : String) (m : Nat) :
    (candidateName stem suffix m).data =
      (stem ++ " (").data ++
        ((decimalRepr m).data ++ (")" ++ suffix).data) := by
  unfold candidateName
  simp [String.data_append, List.append_assoc]

theorem candidate_nameColl (stem suffix : String) (m : Nat) (hm : 1 ≤ m) :
    NameColl stem suffix (candidateName stem suffix m) := by
  have hdata := candidateName_data stem suffix m
  have hne := decimalRepr_ne_empty m
  unfold NameColl
  rw [hdata]
  have hlen : ((stem ++ " (").data ++
      ((decimalRepr m).data ++ (")" ++ suffix).data)).length =
      (stem ++ " (").data.length + (decimalRepr m).data.length +
        (")" ++ suffix).data.length := by
    simp [List.length_append]
    omega
  have hdlen : 1 ≤ (decimalRepr m).data.length := by
    cases hd : (decimalRepr m).data with
    | nil => exact absurd hd hne
    | cons a t => simp
  refine ⟨?_, ?_, ?_, ?_⟩
  · rw [hlen]; omega
  · exact List.take_left _ _
  · rw [hlen]
    have harith : (stem ++ " (").data.length + (decimalRepr m).data.length +
        (")" ++ suffix).data.length - (")" ++ suffix).data.length =
        ((stem ++ " (").data ++ (decimalRepr m).data).length := by
      simp [List.length_append]
      omega
    rw [harith, ← List.append_assoc]
    exact List.drop_left _ _
  · intro c hc
    rw [List.drop_left] at hc
    rw [hlen] at hc
    have harith : (stem ++ " (").data.length + (decimalRepr m).data.length +
        (")" ++ suffix).data.length - (stem ++ " (").data.length -
        (")" ++ suffix).data.length = (decimalRepr m).data.length := by
      omega
    rw [harith, List.take_left] at hc
    exact decimalRepr_data_digits m hm c hc

theorem candidate_isCollidingPath (stem suffix : String) (destination : Path)
    (m : Nat) (hm : 1 ≤ m) :
    IsCollidingPath stem suffix destination
      (destination ++ [candidateName stem suffix m]) := by
  refine ⟨List.take_left _ _, by simp, ?_⟩
  rw [List.getLastD_concat]
  exact candidate_nameColl stem suffix m hm

theorem colliding_window_card (fs : FS) (destination : Path)
    (stem suffix : String) (N : Nat) (hN : 2 ≤ N)
    (hall : ∀ m, 2 ≤ m → m < N →
      ExistsPath fs (destination ++ [candidateName stem suffix m])) :
    N - 2 ≤ ((fs.files ∪ fs.dirs).filter
      (IsCollidingPath stem suffix destination)).card := by
  have hmaps : ∀ j ∈ Finset.range (N - 2),
      destination ++ [candidateName stem suffix (2 + j)] ∈
        (fs.files ∪ fs.dirs).filter
          (IsCollidingPath stem suffix destination) := by
    intro j hj
    rw [Finset.mem_range] at hj
    rw [Finset.mem_filter]
    constructor
    · rcases hall (2 + j) (by omega) (by omega) with h | h
      · exact Finset.mem_union_left _ h
      · exact Finset.mem_union_right _ h
    · exact candidate_isCollidingPath stem suffix destination (2 + j) (by omega)
  have hinj : Set.InjOn
      (fun j => destination ++ [candidateName stem suffix (2 + j)])
      ↑(Finset.range (N - 2)) := by
    intro a _ b _ hab
    simp only [List.append_cancel_left_eq, List.cons.injEq] at hab
    have := candidateName_inj stem suffix (2 + a) (2 + b)
      (by omega) (by omega) hab.1
    omega
  have hcard := Finset.card_le_card_of_injOn _ hmaps hinj
  simpa [Finset.card_range] using hcard

/-! ## Helper lemmas: the dated path -/

theorem decDigitsAux_zero : ∀ fuel, decDigitsAux fuel 0 = [] := by
  intro fuel
  cases fuel with
  | zero => rfl
  | succ f => simp [decDigitsAux]

theorem decDigitsAux_length_of_bounds :
    ∀ fuel k n, n ≤ fuel → 10 ^ k ≤ n → n < 10 ^ (k + 1) →
      (decDigitsAux fuel n).length = k + 1 := by
  intro fuel
  induction fuel with
  | zero =>
    intro k n hn h1 h2
    have : 1 ≤ 10 ^ k := Nat.one_le_pow _ _ (by omega)
    omega
  | succ f ih =>
    intro k n hn h1 h2
    have hk1 : 1 ≤ 10 ^ k := Nat.one_le_pow _ _ (by omega)
    have h0 : n ≠ 0 := by omega
    simp only [decDigitsAux, if_neg h0, List.length_cons]
    cases k with
    | zero =>
      have hd0 : n / 10 = 0 := Nat.div_eq_of_lt (by simpa using h2)
      rw [hd0, decDigitsAux_zero]
      rfl
    | succ k' =>
      have hdiv1 : 10 ^ k' ≤ n / 10 := by
        rw [Nat.le_div_iff_mul_le (by omega)]
        calc 10 ^ k' * 10 = 10 ^ (k' + 1) := by ring
        _ ≤ n := h1
      have hdiv2 : n / 10 < 10 ^ (k' + 1) := by
        rw [Nat.div_lt_iff_lt_mul (by omega)]
        calc n < 10 ^ (k' + 1 + 1) := h2
        _ = 10 ^ (k' + 1) * 10 := by ring
      have hdivf : n / 10 ≤ f := by
        have : n / 10 < n := Nat.div_lt_self (by omega) (by omega)
        omega
      rw [ih k' (n / 10) hdivf hdiv1 hdiv2]

theorem decimalRepr_length_four (y : Nat) (h1 : 1000 ≤ y) (h2 : y ≤ 9999) :
    (decimalRepr y).length = 4 := by
  unfold decimalRepr
  rw [if_neg (by omega)]
  rw [String.length_mk, List.length_map, List.length_reverse]
  have : (10 : Nat) ^ 3 = 1000 := by norm_num
  have h4 : (10 : Nat) ^ 4 = 10000 := by norm_num
  exact decDigitsAux_length_of_bounds y 3 y le_rfl (by omega) (by omega)

theorem monthAbbr_length : ∀ m : Fin 12, (monthAbbr m).length = 3 := by
  decide

/-! ## Helper lemmas: normalization of extensions -/

theorem char_toNat_ofNat_small (n : Nat) (h : n ≤ 122) :
    (Char.ofNat n).toNat = n := by
  have hv : Nat.isValidChar n := Or.inl (by omega)
  simp [Char.ofNat, hv, Char.ofNatAux, Char.toNat, UInt32.toNat,
    BitVec.toNat_ofNatLt]

theorem toNat_lowerChar_upper (c : Char) (h1 : 65 ≤ c.toNat)
    (h2 : c.toNat ≤ 90) : (lowerChar c).toNat = c.toNat + 32 := by
  simp only [lowerChar, if_pos (And.intro h1 h2)]
  exact char_toNat_ofNat_small _ (by omega)

theorem lowerChar_not_upper (c : Char) :
    ¬(65 ≤ (lowerChar c).toNat ∧ (lowerChar c).toNat ≤ 90) := by
  by_cases h : 65 ≤ c.toNat ∧ c.toNat ≤ 90
  · rw [toNat_lowerChar_upper c h.1 h.2]
    omega
  · simp only [lowerChar, if_neg h]
    omega

theorem lowerChar_fixed_of_not_upper (c : Char)
    (h : ¬(65 ≤ c.toNat ∧ c.toNat ≤ 90)) : lowerChar c = c := by
  simp only [lowerChar, if_neg h]

theorem lowerChar_idem (c : Char) :
    lowerChar (lowerChar c) = lowerChar c :=
  lowerChar_fixed_of_not_upper _ (lowerChar_not_upper c)

theorem map_lowerChar_fixed :
    ∀ l : List Char, (∀ c ∈ l, lowerChar c = c) → l.map lowerChar = l := by
  intro l
  induction l with
  | nil => intro _; rfl
  | cons c cs ih =>
    intro h
    rw [List.map_cons, h c (by simp), ih (fun x hx => h x (by simp [hx]))]

theorem pyLower_normalizeExtension (s : String) :
    pyLower (normalizeExtension s) = normalizeExtension s := by
  unfold normalizeExtension pyReplaceSpace pyLower
  simp only [String.data]
  congr 1
  apply map_lowerChar_fixed
  intro c hc
  have hc2 := List.mem_of_mem_filter hc
  rw [List.mem_map] at hc2
  obtain ⟨c0, _, hc0⟩ := hc2
  rw [← hc0]
  exact lowerChar_idem c0

theorem matchesExtensionPattern_head (s : String)
    (h : matchesExtensionPattern s = true) : s.data.head? = some '.' := by
  cases hd : s.data with
  | nil =>
    unfold matchesExtensionPattern at h
    rw [hd] at h
    simp at h
  | cons c rest =>
    unfold matchesExtensionPattern at h
    rw [hd] at h
    simp only [Bool.and_eq_true, beq_iff_eq] at h
    rw [h.1.1]
    rfl

theorem dictInsert_mem (m : Configs) (k v : String) :
    ∀ kv ∈ dictInsert m k v, kv ∈ m ∨ kv.1 = k := by
  intro kv hkv
  unfold dictInsert at hkv
  by_cases hc : (List.lookup k m).isSome
  · rw [if_pos hc, List.mem_map] at hkv
    obtain ⟨kv0, hkv0, heq⟩ := hkv
    by_cases he : kv0.1 = k
    · right
      rw [← heq]
      simp [he]
    · left
      rw [← heq]
      simp only [if_neg he]
      exact hkv0
  · rw [if_neg hc, List.mem_append] at hkv
    rcases hkv with h | h
    · exact Or.inl h
    · right
      simp only [List.mem_singleton] at h
      rw [h]

theorem lookup_empty_none (l : List (String × Path))
    (h : ∀ kv ∈ l, kv.1 ≠ "") : List.lookup "" l = none := by
  induction l with
  | nil => rfl
  | cons a t ih =>
    obtain ⟨k, v⟩ := a
    have ha : k ≠ "" := h (k, v) (by simp)
    have hbeq : ("" == k) = false := by
      rw [beq_eq_false_iff_ne]
      exact fun he => ha he.symm
    rw [List.lookup, hbeq]
    exact ih (fun kv hkv => h kv (by simp [hkv]))

/-! ## Helper lemmas: the notification handler -/

theorem foldl_processChild_submitted (h : Handler) (d : Date)
    (inj : Path → MoveStep → Option PyErr) :
    ∀ (children : List DirEntry) (acc : NotifyResult),
      (children.foldl (processChild h d inj) acc).submitted =
        acc.submitted ++
          (children.filter (fun c => c.isFile)).map DirEntry.path := by
  intro children
  induction children with
  | nil => intro acc; simp
  | cons c cs ih =>
    intro acc
    rw [List.foldl_cons, ih]
    by_cases hc : c.isFile
    · simp [processChild, hc, List.filter_cons]
    · simp [processChild, hc, List.filter_cons]

/-! ## Claim theorems -/

/-- C2: for every destination state and source name, `_increment_file_name`
returns `destination/name` when that name is free, and otherwise the first
name of the form `stem (N)suffix`, N counted from 2, that does not exist
(every earlier candidate exists). -/
theorem c2_collision_free_name (fs : FS) (destination : Path) (nm : String) :
    (¬ ExistsPath fs (destination ++ [nm]) →
      (increment_file_name fs destination nm).1 = destination ++ [nm]) ∧
    (ExistsPath fs (destination ++ [nm]) →
      ∃ N, 2 ≤ N ∧
        (increment_file_name fs destination nm).1 =
          destination ++ [candidateName (pyStem nm) (pySuffix nm) N] ∧
        ¬ ExistsPath fs ((increment_file_name fs destination nm).1) ∧
        ∀ m, 2 ≤ m → m < N →
          ExistsPath fs
            (destination ++ [candidateName (pyStem nm) (pySuffix nm) m])) := by
  obtain ⟨hfree, hcoll, hnotex⟩ := increment_file_name_spec fs destination nm
  constructor
  · intro hc
    rw [hfree hc]
  · intro hc
    obtain ⟨N, hN2, h1, hleast, _, _⟩ := hcoll hc
    exact ⟨N, hN2, h1, hnotex, hleast⟩

/-- C2 witness: with `report.txt` present the loop yields `report (2).txt`;
with `report (2).txt` also present it yields `report (3).txt`. -/
theorem c2_collision_free_name_witness :
    (∃ N, 2 ≤ N ∧
      (increment_file_name ⟨{["out", "report.txt"]}, ∅⟩ ["out"]
        "report.txt").1 =
        ["out"] ++
          [candidateName (pyStem "report.txt") (pySuffix "report.txt") N] ∧
      ¬ ExistsPath ⟨{["out", "report.txt"]}, ∅⟩
        ((increment_file_name ⟨{["out", "report.txt"]}, ∅⟩ ["out"]
          "report.txt").1) ∧
      ∀ m, 2 ≤ m → m < N →
        ExistsPath ⟨{["out", "report.txt"]}, ∅⟩
          (["out"] ++
            [candidateName (pyStem "report.txt") (pySuffix "report.txt") m])) ∧
    (increment_file_name ⟨{["out", "report.txt"]}, ∅⟩ ["out"]
      "report.txt").1 = ["out", "report (2).txt"] ∧
    (increment_file_name
      ⟨{["out", "report.txt"], ["out", "report (2).txt"]}, ∅⟩ ["out"]
      "report.txt").1 = ["out", "report (3).txt"] :=
  ⟨(c2_collision_free_name ⟨{["out", "report.txt"]}, ∅⟩ ["out"]
      "report.txt").2 (by decide),
    by decide, by decide⟩

/-- C8: the collision loop always returns a free name, and the number of
`exists()` checks it performs is at most the number of names of the
colliding form `stem (N)suffix` present in the destination state, plus
three. -/
theorem c8_collision_loop_bounded (fs : FS) (destination : Path)
    (nm : String) :
    ¬ ExistsPath fs ((increment_file_name fs destination nm).1) ∧
    (increment_file_name fs destination nm).2 ≤
      ((fs.files ∪ fs.dirs).filter
        (IsCollidingPath (pyStem nm) (pySuffix nm) destination)).card + 3 := by
  obtain ⟨hfree, hcoll, hnotex⟩ := increment_file_name_spec fs destination nm
  refine ⟨hnotex, ?_⟩
  by_cases hex : ExistsPath fs (destination ++ [nm])
  · obtain ⟨N, hN2, _, hleast, hcount, _⟩ := hcoll hex
    have hwin := colliding_window_card fs destination (pyStem nm)
      (pySuffix nm) N hN2 hleast
    omega
  · rw [hfree hex]
    omega

/-- C7: the date-bucket creation step is idempotent: run twice with the
same destination and date it returns the same `destination/YYYY/Mon` path
both times, the second run leaves the filesystem exactly as the first left
it, and files are never touched. -/
theorem c7_add_date_idempotent (fs : FS) (destination : Path) (d : Date)
    (h1 : 1000 ≤ d.year) (h2 : d.year ≤ 9999) :
    (add_date_to_path (add_date_to_path fs destination d).2 destination d).1 =
      (add_date_to_path fs destination d).1 ∧
    (add_date_to_path (add_date_to_path fs destination d).2 destination d).2 =
      (add_date_to_path fs destination d).2 ∧
    (add_date_to_path fs destination d).1 =
      destination ++ [decimalRepr d.year, monthAbbr d.month] ∧
    (decimalRepr d.year).length = 4 ∧
    (monthAbbr d.month).length = 3 ∧
    (add_date_to_path fs destination d).2.files = fs.files := by
  refine ⟨rfl, ?_, rfl, decimalRepr_length_four d.year h1 h2,
    monthAbbr_length d.month, rfl⟩
  simp [add_date_to_path, mkdirParents, Finset.union_assoc]

/-- C7 witness: creating `dest/2024/Jan` twice, starting from an empty
filesystem. -/
theorem c7_add_date_idempotent_witness :
    1000 ≤ (Date.mk 2024 0).year ∧
    ((add_date_to_path (add_date_to_path ⟨∅, ∅⟩ ["dest"] ⟨2024, 0⟩).2
        ["dest"] ⟨2024, 0⟩).1 =
      (add_date_to_path ⟨∅, ∅⟩ ["dest"] ⟨2024, 0⟩).1 ∧
    (add_date_to_path (add_date_to_path ⟨∅, ∅⟩ ["dest"] ⟨2024, 0⟩).2
        ["dest"] ⟨2024, 0⟩).2 =
      (add_date_to_path ⟨∅, ∅⟩ ["dest"] ⟨2024, 0⟩).2 ∧
    (add_date_to_path ⟨∅, ∅⟩ ["dest"] ⟨2024, 0⟩).1 =
      ["dest"] ++ [decimalRepr (Date.mk 2024 0).year,
        monthAbbr (Date.mk 2024 0).month] ∧
    (decimalRepr (Date.mk 2024 0).year).length = 4 ∧
    (monthAbbr (Date.mk 2024 0).month).length = 3 ∧
    (add_date_to_path ⟨∅, ∅⟩ ["dest"] ⟨2024, 0⟩).2.files =
      (⟨∅, ∅⟩ : FS).files) :=
  ⟨by decide,
    c7_add_date_idempotent ⟨∅, ∅⟩ ["dest"] ⟨2024, 0⟩ (by decide) (by decide)⟩

/-- C3: the per-file task routes to the mapping entry for the lower-cased
suffix when present, otherwise to the fallback destination; when neither
is defined the file is skipped with one warning record, the filesystem is
untouched, no move happens and the task returns normally. -/
theorem c3_extension_routing (h : Handler) (d : Date)
    (inj : MoveStep → Option PyErr) (fs : FS) (file_path : Path) :
    (∀ p, List.lookup (pyLower (pySuffix (pathName file_path)))
        h.extension_paths = some p →
      destinationLookup h file_path = some p) ∧
    (List.lookup (pyLower (pySuffix (pathName file_path)))
        h.extension_paths = none →
      destinationLookup h file_path = h.path_for_undefined_extensions) ∧
    (List.lookup (pyLower (pySuffix (pathName file_path)))
        h.extension_paths = none →
      h.path_for_undefined_extensions = none →
      move_file h d inj fs file_path = ⟨fs, [skipUndefinedRec], none⟩) := by
  refine ⟨?_, ?_, ?_⟩
  · intro p hp
    unfold destinationLookup
    rw [hp]
  · intro hn
    unfold destinationLookup
    rw [hn]
  · intro hn hf
    have hdl : destinationLookup h file_path = none := by
      unfold destinationLookup
      rw [hn]
      exact hf
    unfold move_file
    rw [hdl]

/-- C3 witness: an unmapped `a.xyz` with no fallback configured is skipped
with a warning record and nothing is moved. -/
theorem c3_extension_routing_witness :
    List.lookup (pyLower (pySuffix (pathName ["watch", "a.xyz"])))
      (Handler.mk ["watch"] [(".txt", ["out"])] none).extension_paths =
        none ∧
    (Handler.mk ["watch"] [(".txt", ["out"])] none).path_for_undefined_extensions = none ∧
    move_file ⟨["watch"], [(".txt", ["out"])], none⟩ ⟨2024, 0⟩
      (fun _ => none) ⟨∅, ∅⟩ ["watch", "a.xyz"] =
      ⟨⟨∅, ∅⟩, [skipUndefinedRec], none⟩ :=
  ⟨by decide, by decide,
    (c3_extension_routing ⟨["watch"], [(".txt", ["out"])], none⟩ ⟨2024, 0⟩
      (fun _ => none) ⟨∅, ∅⟩ ["watch", "a.xyz"]).2.2 (by decide) (by decide)⟩

/-- C4: whenever the `try` block of the per-file task raises any
`Exception` kind at any of its three statements, `_move_file` returns
normally with the exception's log record appended (critical severity for
the classified kinds, error severity for an unclassified one) and performs
no move; no exception propagates out of the task. -/
theorem c4_task_catches_every_exception (h : Handler) (d : Date)
    (inj : MoveStep → Option PyErr) (fs : FS)
    (file_path destination_path : Path) (e : PyErr) (fs2 : FS)
    (lg : List LogRec)
    (hdp : destinationLookup h file_path = some destination_path)
    (hthrow : move_file_try d inj fs destination_path file_path =
      .error (e, fs2, lg)) :
    move_file h d inj fs file_path =
      ⟨fs2, (⟨LogLevel.debug, "Got extension path"⟩ :: lg) ++
        [handleException e], none⟩ ∧
    handleException e ∈ (move_file h d inj fs file_path).logs ∧
    ((handleException e).level = LogLevel.critical ∨
      (handleException e).level = LogLevel.error) ∧
    (move_file h d inj fs file_path).moved = none := by
  have hmf : move_file h d inj fs file_path =
      ⟨fs2, (⟨LogLevel.debug, "Got extension path"⟩ :: lg) ++
        [handleException e], none⟩ := by
    simp only [move_file, hdp, hthrow]
  refine ⟨hmf, ?_, ?_, by rw [hmf]⟩
  · rw [hmf]
    simp
  · cases e <;> simp [handleException]

/-- C4 witness: a `PermissionError` raised by the date-directory creation
is caught and logged at critical severity, and the task returns with no
move performed. -/
theorem c4_task_catches_every_exception_witness :
    destinationLookup ⟨["watch"], [(".txt", ["out"])], none⟩
      ["watch", "a.txt"] = some ["out"] ∧
    move_file_try ⟨2024, 0⟩ (fun _ => some PyErr.permission) ⟨∅, ∅⟩
      ["out"] ["watch", "a.txt"] =
        .error (PyErr.permission, ⟨∅, ∅⟩, []) ∧
    (move_file ⟨["watch"], [(".txt", ["out"])], none⟩ ⟨2024, 0⟩
        (fun _ => some PyErr.permission) ⟨∅, ∅⟩ ["watch", "a.txt"] =
      ⟨⟨∅, ∅⟩, (⟨LogLevel.debug, "Got extension path"⟩ :: []) ++
        [handleException PyErr.permission], none⟩ ∧
    handleException PyErr.permission ∈
      (move_file ⟨["watch"], [(".txt", ["out"])], none⟩ ⟨2024, 0⟩
        (fun _ => some PyErr.permission) ⟨∅, ∅⟩ ["watch", "a.txt"]).logs ∧
    ((handleException PyErr.permission).level = LogLevel.critical ∨
      (handleException PyErr.permission).level = LogLevel.error) ∧
    (move_file ⟨["watch"], [(".txt", ["out"])], none⟩ ⟨2024, 0⟩
      (fun _ => some PyErr.permission) ⟨∅, ∅⟩
      ["watch", "a.txt"]).moved = none) :=
  ⟨by decide, by rfl,
    c4_task_catches_every_exception ⟨["watch"], [(".txt", ["out"])], none⟩
      ⟨2024, 0⟩ (fun _ => some PyErr.permission) ⟨∅, ∅⟩ ["watch", "a.txt"]
      ["out"] PyErr.permission ⟨∅, ∅⟩ [] (by decide) (by rfl)⟩

/-- C1: every move the per-file task actually performs targets the path
chosen by the collision step, which does not exist — neither as file nor
as directory — in the filesystem state in which the move runs (date
directories created, files unchanged); in particular no existing file is
overwritten and every other file survives the move. -/
theorem c1_move_never_overwrites (h : Handler) (d : Date)
    (inj : MoveStep → Option PyErr) (fs : FS) (file_path src dst : Path)
    (hm : (move_file h d inj fs file_path).moved = some (src, dst)) :
    ∃ destination_path,
      destinationLookup h file_path = some destination_path ∧
      src = file_path ∧
      dst = (increment_file_name (add_date_to_path fs destination_path d).2
        (add_date_to_path fs destination_path d).1 (pathName file_path)).1 ∧
      ¬ ExistsPath (add_date_to_path fs destination_path d).2 dst ∧
      (add_date_to_path fs destination_path d).2.files = fs.files ∧
      dst ∉ fs.files ∧
      (move_file h d inj fs file_path).fs.files =
        insert dst (fs.files.erase file_path) ∧
      ∀ p ∈ fs.files, p ≠ src →
        p ∈ (move_file h d inj fs file_path).fs.files := by
  cases hdl : destinationLookup h file_path with
  | none => simp [move_file, hdl] at hm
  | some dp =>
    cases h1 : inj MoveStep.addDate with
    | some e => simp [move_file, move_file_try, hdl, h1] at hm
    | none =>
      cases h2 : inj MoveStep.increment with
      | some e => simp [move_file, move_file_try, hdl, h1, h2] at hm
      | none =>
        cases h3 : inj MoveStep.move with
        | some e => simp [move_file, move_file_try, hdl, h1, h2, h3] at hm
        | none =>
          have hmf : move_file h d inj fs file_path =
              ⟨⟨insert ((increment_file_name (add_date_to_path fs dp d).2
                  (add_date_to_path fs dp d).1 (pathName file_path)).1)
                  (((add_date_to_path fs dp d).2).files.erase file_path),
                ((add_date_to_path fs dp d).2).dirs⟩,
                [⟨LogLevel.debug, "Got extension path"⟩,
                 ⟨LogLevel.debug, "Added date"⟩,
                 ⟨LogLevel.debug, "Processed optional incrementation"⟩,
                 ⟨LogLevel.moveLevel, "Moved file"⟩],
                some (file_path,
                  (increment_file_name (add_date_to_path fs dp d).2
                    (add_date_to_path fs dp d).1 (pathName file_path)).1)⟩ := by
            simp only [move_file, move_file_try, hdl, h1, h2, h3]
          rw [hmf] at hm
          simp only [Option.some.injEq, Prod.mk.injEq] at hm
          obtain ⟨hsrc, hdst⟩ := hm
          have hnotex := (increment_file_name_spec (add_date_to_path fs dp d).2
            (add_date_to_path fs dp d).1 (pathName file_path)).2.2
          have hfiles : ((add_date_to_path fs dp d).2).files = fs.files := rfl
          refine ⟨dp, rfl, hsrc.symm, hdst.symm, ?_, hfiles, ?_, ?_, ?_⟩
          · rw [← hdst]
            exact hnotex
          · intro hdf
            apply hnotex
            left
            rw [hdst, hfiles]
            exact hdf
          · rw [hmf, ← hdst, hfiles]
          · intro p hp hpne
            rw [hmf]
            simp only
            apply Finset.mem_insert_of_mem
            rw [hfiles]
            exact Finset.mem_erase.mpr ⟨by rw [← hsrc] at hpne; exact hpne, hp⟩

/-- C1 witness: a concrete successful move of `watch/report.txt` into
`out/txt/2024/Jan/report.txt`, a path that did not exist. -/
theorem c1_move_never_overwrites_witness :
    (move_file ⟨["watch"], [(".txt", ["out", "txt"])], none⟩ ⟨2024, 0⟩
      (fun _ => none) ⟨{["watch", "report.txt"]}, {["watch"]}⟩
      ["watch", "report.txt"]).moved =
      some (["watch", "report.txt"],
        ["out", "txt", "2024", "Jan", "report.txt"]) ∧
    (∃ destination_path,
      destinationLookup ⟨["watch"], [(".txt", ["out", "txt"])], none⟩
        ["watch", "report.txt"] = some destination_path ∧
      ["watch", "report.txt"] = (["watch", "report.txt"] : Path) ∧
      ["out", "txt", "2024", "Jan", "report.txt"] =
        (increment_file_name
          (add_date_to_path ⟨{["watch", "report.txt"]}, {["watch"]}⟩
            destination_path ⟨2024, 0⟩).2
          (add_date_to_path ⟨{["watch", "report.txt"]}, {["watch"]}⟩
            destination_path ⟨2024, 0⟩).1
          (pathName ["watch", "report.txt"])).1 ∧
      ¬ ExistsPath
        (add_date_to_path ⟨{["watch", "report.txt"]}, {["watch"]}⟩
          destination_path ⟨2024, 0⟩).2
        ["out", "txt", "2024", "Jan", "report.txt"] ∧
      (add_date_to_path ⟨{["watch", "report.txt"]}, {["watch"]}⟩
        destination_path ⟨2024, 0⟩).2.files =
        (⟨{["watch", "report.txt"]}, {["watch"]}⟩ : FS).files ∧
      ["out", "txt", "2024", "Jan", "report.txt"] ∉
        (⟨{["watch", "report.txt"]}, {["watch"]}⟩ : FS).files ∧
      (move_file ⟨["watch"], [(".txt", ["out", "txt"])], none⟩ ⟨2024, 0⟩
        (fun _ => none) ⟨{["watch", "report.txt"]}, {["watch"]}⟩
        ["watch", "report.txt"]).fs.files =
        insert ["out", "txt", "2024", "Jan", "report.txt"]
          ((⟨{["watch", "report.txt"]}, {["watch"]}⟩ : FS).files.erase
            ["watch", "report.txt"]) ∧
      ∀ p ∈ (⟨{["watch", "report.txt"]}, {["watch"]}⟩ : FS).files,
        p ≠ ["watch", "report.txt"] →
        p ∈ (move_file ⟨["watch"], [(".txt", ["out", "txt"])], none⟩
          ⟨2024, 0⟩ (fun _ => none)
          ⟨{["watch", "report.txt"]}, {["watch"]}⟩
          ["watch", "report.txt"]).fs.files) :=
  ⟨by decide,
    c1_move_never_overwrites ⟨["watch"], [(".txt", ["out", "txt"])], none⟩
      ⟨2024, 0⟩ (fun _ => none) ⟨{["watch", "report.txt"]}, {["watch"]}⟩
      ["watch", "report.txt"] ["watch", "report.txt"]
      ["out", "txt", "2024", "Jan", "report.txt"] (by decide)⟩

/-- C5 counterexample: when the enumeration of the tracked directory
fails, `on_modified` propagates the error out of the handler instead of
returning normally, and emits no log record at all — in particular none at
critical severity. -/
theorem c5_enumeration_failure_counterexample :
    on_modified ⟨["watch"], [(".txt", ["out"])], none⟩ ⟨2024, 0⟩
      (fun _ _ => none) (Except.error PyErr.shutilOrOs) ⟨∅, ∅⟩ =
      Except.error PyErr.shutilOrOs ∧
    ∀ r : NotifyResult,
      on_modified ⟨["watch"], [(".txt", ["out"])], none⟩ ⟨2024, 0⟩
        (fun _ _ => none) (Except.error PyErr.shutilOrOs) ⟨∅, ∅⟩ ≠
        Except.ok r :=
  ⟨rfl, fun _ hr => Except.noConfusion hr⟩

/-- C5 amended: an enumeration failure is terminal for the notification —
no per-file move runs — but the handler's entry point propagates the
exception to its caller unchanged and logs nothing; whether the watch loop
survives is decided by the watcher framework, not by this handler. -/
theorem c5_enumeration_failure_propagates (h : Handler) (d : Date)
    (inj : Path → MoveStep → Option PyErr) (e : PyErr) (fs : FS) :
    on_modified h d inj (Except.error e) fs = Except.error e ∧
    ∀ r : NotifyResult,
      on_modified h d inj (Except.error e) fs ≠ Except.ok r :=
  ⟨rfl, fun _ hr => Except.noConfusion hr⟩

/-- C9: every enumerated child that is not a regular file is skipped: the
children submitted to the executor are exactly the `is_file` ones, so a
non-file child (with the distinct paths `iterdir` yields) is never passed
to the move step. -/
theorem c9_directories_never_submitted (h : Handler) (d : Date)
    (inj : Path → MoveStep → Option PyErr) (children : List DirEntry)
    (fs : FS) (res : NotifyResult)
    (hok : on_modified h d inj (Except.ok children) fs = Except.ok res)
    (hnodup : (children.map DirEntry.path).Nodup) :
    res.submitted = (children.filter (fun c => c.isFile)).map DirEntry.path ∧
    ∀ c ∈ children, c.isFile = false → c.path ∉ res.submitted := by
  have hres : res = children.foldl (processChild h d inj)
      ⟨fs, [⟨LogLevel.debug, "event"⟩], []⟩ := by
    unfold on_modified at hok
    exact (Except.ok.inj hok).symm
  have hsub : res.submitted =
      (children.filter (fun c => c.isFile)).map DirEntry.path := by
    rw [hres, foldl_processChild_submitted]
    simp
  refine ⟨hsub, ?_⟩
  intro c hc hcf hmem
  rw [hsub, List.mem_map] at hmem
  obtain ⟨c', hc', hpath⟩ := hmem
  have hc'mem := List.mem_of_mem_filter hc'
  have hc'file : c'.isFile = true := List.of_mem_filter hc'
  have hne : c' ≠ c := by
    intro he
    rw [he, hcf] at hc'file
    exact Bool.noConfusion hc'file
  exact hne (List.inj_on_of_nodup_map hnodup hc'mem hc hpath)

/-- C9 witness: one regular file and one subdirectory; only the file is
submitted. -/
theorem c9_directories_never_submitted_witness :
    (on_modified ⟨["watch"], [], none⟩ ⟨2024, 0⟩ (fun _ _ => none)
      (Except.ok [⟨["watch", "a.txt"], true⟩, ⟨["watch", "sub"], false⟩])
      ⟨∅, ∅⟩ =
      Except.ok ⟨⟨∅, ∅⟩,
        [⟨LogLevel.debug, "event"⟩, ⟨LogLevel.debug, "Processing"⟩,
         skipUndefinedRec, ⟨LogLevel.debug, "Skipping directory"⟩],
        [["watch", "a.txt"]]⟩) ∧
    (([⟨["watch", "a.txt"], true⟩,
        (⟨["watch", "sub"], false⟩ : DirEntry)].map DirEntry.path).Nodup) ∧
    ((NotifyResult.mk ⟨∅, ∅⟩
        [⟨LogLevel.debug, "event"⟩, ⟨LogLevel.debug, "Processing"⟩,
         skipUndefinedRec, ⟨LogLevel.debug, "Skipping directory"⟩]
        [["watch", "a.txt"]]).submitted =
      ([⟨["watch", "a.txt"], true⟩,
        (⟨["watch", "sub"], false⟩ : DirEntry)].filter
          (fun c => c.isFile)).map DirEntry.path ∧
      ∀ c ∈ [⟨["watch", "a.txt"], true⟩,
          (⟨["watch", "sub"], false⟩ : DirEntry)],
        c.isFile = false →
        c.path ∉ (NotifyResult.mk ⟨∅, ∅⟩
          [⟨LogLevel.debug, "event"⟩, ⟨LogLevel.debug, "Processing"⟩,
           skipUndefinedRec, ⟨LogLevel.debug, "Skipping directory"⟩]
          [["watch", "a.txt"]]).submitted) :=
  ⟨by rfl, by decide,
    c9_directories_never_submitted ⟨["watch"], [], none⟩ ⟨2024, 0⟩
      (fun _ _ => none)
      [⟨["watch", "a.txt"], true⟩, ⟨["watch", "sub"], false⟩] ⟨∅, ∅⟩
      (NotifyResult.mk ⟨∅, ∅⟩
        [⟨LogLevel.debug, "event"⟩, ⟨LogLevel.debug, "Processing"⟩,
         skipUndefinedRec, ⟨LogLevel.debug, "Skipping directory"⟩]
        [["watch", "a.txt"]]) (by rfl) (by decide)⟩

/-- C6 counterexample: loading a JSON file inserts its keys verbatim — the
key `.TXT` enters the configs un-lowercased, and the move task's
lower-cased lookup then misses it. -/
theorem c6_json_load_counterexample :
    (load_json_file_into_configs [(".TXT", "/out/txt")] []).1 =
      [(".TXT", "/out/txt")] ∧
    pyLower ".TXT" ≠ ".TXT" ∧
    List.lookup (pyLower (pySuffix (pathName ["watch", "report.TXT"])))
      [(".TXT", (["out"] : Path))] = none :=
  ⟨by decide, by decide, by decide⟩

/-- C6 amended: the single-extension add path does yield only normalized
keys — lower-cased, dot-prefixed, matching `^\.[a-zA-Z0-9]+$` — and
preserves that invariant; the JSON-load path, by contrast, inserts keys
unchanged. -/
theorem c6_single_add_normalizes (configs : Configs) (ext pathStr : String)
    (hprev : ∀ kv ∈ configs,
      matchesExtensionPattern kv.1 = true ∧ pyLower kv.1 = kv.1)
    (hsucc : (handle_write_args_new_config configs ext pathStr).2 =
      EXIT_SUCCESS) :
    ∀ kv ∈ (handle_write_args_new_config configs ext pathStr).1,
      matchesExtensionPattern kv.1 = true ∧ pyLower kv.1 = kv.1 ∧
      kv.1.data.head? = some '.' := by
  unfold handle_write_args_new_config at hsucc ⊢
  by_cases hemp : normalizeExtension ext = "" ∨ pyStrip pathStr = ""
  · rw [if_pos hemp] at hsucc
    simp [EXIT_FAILURE, EXIT_SUCCESS] at hsucc
  · rw [if_neg hemp] at hsucc ⊢
    by_cases hpat : matchesExtensionPattern (normalizeExtension ext) = false
    · rw [if_pos hpat] at hsucc
      simp [EXIT_FAILURE, EXIT_SUCCESS] at hsucc
    · rw [if_neg hpat] at hsucc ⊢
      intro kv hkv
      rcases dictInsert_mem _ _ _ kv hkv with hin | hk
      · obtain ⟨hp1, hp2⟩ := hprev kv hin
        exact ⟨hp1, hp2, matchesExtensionPattern_head _ hp1⟩
      · have hpat2 : matchesExtensionPattern (normalizeExtension ext) =
            true := by
          revert hpat
          cases matchesExtensionPattern (normalizeExtension ext) <;> simp
        rw [hk]
        exact ⟨hpat2, pyLower_normalizeExtension ext,
          matchesExtensionPattern_head _ hpat2⟩

/-- C6 witness: adding ` .TXT ` through the validated single-add path
stores the normalized key `.txt`. -/
theorem c6_single_add_normalizes_witness :
    (handle_write_args_new_config [] ".TXT" "/out").2 = EXIT_SUCCESS ∧
    ∀ kv ∈ (handle_write_args_new_config [] ".TXT" "/out").1,
      matchesExtensionPattern kv.1 = true ∧ pyLower kv.1 = kv.1 ∧
      kv.1.data.head? = some '.' :=
  ⟨by decide,
    c6_single_add_normalizes [] ".TXT" "/out" (by simp) (by decide)⟩

/-- C10 counterexample: an empty-string key in the extension map (possible
through the JSON-load path or a hand-edited configs file, which the track
command uses unvalidated) is matched by an extensionless file, which is
then routed to the mapped directory instead of the fallback. -/
theorem c10_extensionless_counterexample :
    pySuffix (pathName ["watch", "noext"]) = "" ∧
    destinationLookup ⟨["watch"], [("", ["mapped"])], some ["fallback"]⟩
      ["watch", "noext"] = some ["mapped"] ∧
    destinationLookup ⟨["watch"], [("", ["mapped"])], some ["fallback"]⟩
      ["watch", "noext"] ≠
      (⟨["watch"], [("", ["mapped"])], some ["fallback"]⟩ :
        Handler).path_for_undefined_extensions :=
  ⟨by decide, by decide, by decide⟩

/-- C10 amended: provided every configured key is nonempty — as the
validated single-add path guarantees — an extensionless file looks up the
empty string, misses every mapping, and is routed to the fallback
destination when one is configured or skipped with a warning record
otherwise. -/
theorem c10_extensionless_fallback (h : Handler) (d : Date)
    (inj : MoveStep → Option PyErr) (fs : FS) (file_path : Path)
    (hkeys : ∀ kv ∈ h.extension_paths, kv.1 ≠ "")
    (hsuf : pySuffix (pathName file_path) = "") :
    destinationLookup h file_path = h.path_for_undefined_extensions ∧
    (h.path_for_undefined_extensions = none →
      move_file h d inj fs file_path = ⟨fs, [skipUndefinedRec], none⟩) := by
  have hlk : List.lookup (pyLower (pySuffix (pathName file_path)))
      h.extension_paths = none := by
    rw [hsuf]
    exact lookup_empty_none h.extension_paths hkeys
  constructor
  · unfold destinationLookup
    rw [hlk]
  · intro hf
    have hdl : destinationLookup h file_path = none := by
      unfold destinationLookup
      rw [hlk]
      exact hf
    unfold move_file
    rw [hdl]

/-- C10 witness: with the normalized map of a single `.txt` entry and a
fallback configured, the extensionless file `noext` goes to the
fallback. -/
theorem c10_extensionless_fallback_witness :
    (∀ kv ∈ (Handler.mk ["watch"] [(".txt", ["out"])]
        (some ["fallback"])).extension_paths, kv.1 ≠ "") ∧
    pySuffix (pathName ["watch", "noext"]) = "" ∧
    (destinationLookup ⟨["watch"], [(".txt", ["out"])], some ["fallback"]⟩
        ["watch", "noext"] =
      (⟨["watch"], [(".txt", ["out"])], some ["fallback"]⟩ :
        Handler).path_for_undefined_extensions ∧
    ((⟨["watch"], [(".txt", ["out"])], some ["fallback"]⟩ :
        Handler).path_for_undefined_extensions = none →
      move_file ⟨["watch"], [(".txt", ["out"])], some ["fallback"]⟩
        ⟨2024, 0⟩ (fun _ => none) ⟨∅, ∅⟩ ["watch", "noext"] =
        ⟨⟨∅, ∅⟩, [skipUndefinedRec], none⟩)) :=
  ⟨by decide, by decide,
    c10_extensionless_fallback
      ⟨["watch"], [(".txt", ["out"])], some ["fallback"]⟩ ⟨2024, 0⟩
      (fun _ => none) ⟨∅, ∅⟩ ["watch", "noext"] (by decide) (by decide)⟩

/-- C8 witness: the loop instantiated at a destination holding
`report.txt`: the returned name is free and the checks stay within the
bound. -/
theorem c8_collision_loop_bounded_witness :
    ¬ ExistsPath ⟨{["out", "report.txt"]}, ∅⟩
      ((increment_file_name ⟨{["out", "report.txt"]}, ∅⟩ ["out"]
        "report.txt").1) ∧
    (increment_file_name ⟨{["out", "report.txt"]}, ∅⟩ ["out"]
      "report.txt").2 ≤
      (((⟨{["out", "report.txt"]}, ∅⟩ : FS).files ∪
        (⟨{["out", "report.txt"]}, ∅⟩ : FS).dirs).filter
        (IsCollidingPath (pyStem "report.txt") (pySuffix "report.txt")
          ["out"])).card + 3 :=
  c8_collision_loop_bounded ⟨{["out", "report.txt"]}, ∅⟩ ["out"]
    "report.txt"

/-- C5 amended, instantiated: a concrete failing enumeration propagates
out of the handler. -/
theorem c5_enumeration_failure_propagates_witness :
    on_modified ⟨["watch"], [], none⟩ ⟨2024, 0⟩ (fun _ _ => none)
      (Except.error PyErr.permission) ⟨∅, ∅⟩ =
      Except.error PyErr.permission ∧
    ∀ r : NotifyResult,
      on_modified ⟨["watch"], [], none⟩ ⟨2024, 0⟩ (fun _ _ => none)
        (Except.error PyErr.permission) ⟨∅, ∅⟩ ≠ Except.ok r :=
  c5_enumeration_failure_propagates ⟨["watch"], [], none⟩ ⟨2024, 0⟩
    (fun _ _ => none) PyErr.permission ⟨∅, ∅⟩

end AutoFileSorter
